import Mathlib

/-!
Verification of the zclwrite token-tree engine and the transform chain.

The Go source consists of two files:
  * a token data model (`Token`, `Tokens`, `TokenSeq`) with a flattening
    traversal `EachToken`, a materialization `Tokens()`, and a serializer
    `WriteTo` that streams spaces and token bytes to an `io.Writer`;
  * a transformer pipeline (`Transformer`, `TransformerFunc`, `Chain`).

Bytes are modelled as `Nat` (an ASCII space is 32), Go slices as `List`,
`io.Writer` sinks as deterministic state machines
`σ → List Nat → Nat × Option ε × σ` (reported count, optional error, new
state), and Go `int` fields that the claims exercise at negative values
(`SpacesBefore`) as `Int`.
-/

/-- A single token: a type tag, a byte payload, and the count of literal
space characters preceding it.  `SpacesBefore` is a Go `int`, so it is
modelled as `Int`. -/
structure Token where
  type : Nat
  bytes : List Nat
  spacesBefore : Int
deriving DecidableEq, Repr

/-- The tree of token generators.  `single` is a `*Token` leaf, `flat` is a
`Tokens` slice leaf, and `seq` is a `*TokenSeq`: `seq none` is a nil
pointer, `seq (some gens)` a pointer to a slice of child generators (a Go
nil slice and an empty slice behave identically under `range`, so both are
`some []`). -/
inductive TokenGen where
  | single : Token → TokenGen
  | flat : List Token → TokenGen
  | seq : Option (List TokenGen) → TokenGen

/-- A `TokenSeq` pointer: `none` models a nil `*TokenSeq`. -/
def TokenSeqPtr := Option (List TokenGen)

mutual

/-- `EachToken` for a single generator.  The Go callback may close over
mutable state, so it is modelled as a state transition `α → Token → α`
threaded through the traversal in callback-invocation order:
`Token.EachToken` invokes the callback on itself, `Tokens.EachToken`
iterates the slice, and `TokenSeq.EachToken` returns at once on a nil
receiver and otherwise delegates to each child in order. -/
def TokenGen.eachToken {α : Type} (f : α → Token → α) : TokenGen → α → α
  | .single t, a => f a t
  | .flat ts, a => ts.foldl f a
  | .seq none, a => a
  | .seq (some gens), a => TokenGen.eachTokenList f gens a

/-- The loop body of `TokenSeq.EachToken`: `for _, gen := range *ts
{ gen.EachToken(cb) }`. -/
def TokenGen.eachTokenList {α : Type} (f : α → Token → α) : List TokenGen → α → α
  | [], a => a
  | g :: gs, a => TokenGen.eachTokenList f gs (TokenGen.eachToken f g a)

end

/-- `(ts *TokenSeq).EachToken`: nothing on a nil pointer, otherwise the
child loop. -/
def TokenSeq.eachToken {α : Type} (f : α → Token → α) : TokenSeqPtr → α → α
  | none, a => a
  | some gens, a => TokenGen.eachTokenList f gens a

/-- `(ts *TokenSeq).Tokens()`: run `EachToken`, appending every token to a
growing list. -/
def TokenSeq.tokens (ts : TokenSeqPtr) : List Token :=
  TokenSeq.eachToken (fun acc t => acc ++ [t]) ts []

/-- The flattened output of a single generator, via its own `EachToken`. -/
def TokenGen.tokens (g : TokenGen) : List Token :=
  g.eachToken (fun acc t => acc ++ [t]) []

/-- `TokenSeqEmpty = TokenSeq([]TokenGen(nil))`: the distinguished empty
sequence (a non-nil pointer to an empty child list). -/
def TokenSeqEmpty : List TokenGen := []

mutual

/-- Specification-level flattening of a generator, used to reason about
`eachToken`. -/
def TokenGen.flatten : TokenGen → List Token
  | .single t => [t]
  | .flat ts => ts
  | .seq none => []
  | .seq (some gens) => TokenGen.flattenList gens

/-- Flattening of a child list: concatenation in child order. -/
def TokenGen.flattenList : List TokenGen → List Token
  | [] => []
  | g :: gs => g.flatten ++ TokenGen.flattenList gs

end

/-- Flattening of a `TokenSeq` pointer. -/
def TokenSeq.flatten : TokenSeqPtr → List Token
  | none => []
  | some gens => TokenGen.flattenList gens

theorem foldl_append_singleton (ts : List Token) (l : List Token) :
    ts.foldl (fun acc t => acc ++ [t]) l = l ++ ts := by
  induction ts generalizing l with
  | nil => simp
  | cons t ts ih => simp [List.foldl_cons, ih, List.append_assoc]

mutual

theorem TokenGen.eachToken_eq_foldl {α : Type} (f : α → Token → α)
    (g : TokenGen) (a : α) : g.eachToken f a = g.flatten.foldl f a := by
  match g with
  | .single t => rfl
  | .flat ts => rfl
  | .seq none => rfl
  | .seq (some gens) =>
    simp only [TokenGen.eachToken, TokenGen.flatten]
    exact TokenGen.eachTokenList_eq_foldl f gens a

theorem TokenGen.eachTokenList_eq_foldl {α : Type} (f : α → Token → α)
    (gs : List TokenGen) (a : α) :
    TokenGen.eachTokenList f gs a = (TokenGen.flattenList gs).foldl f a := by
  match gs with
  | [] => rfl
  | g :: gs =>
    simp only [TokenGen.eachTokenList, TokenGen.flattenList, List.foldl_append]
    rw [TokenGen.eachToken_eq_foldl f g a,
        TokenGen.eachTokenList_eq_foldl f gs (g.flatten.foldl f a)]

end

theorem TokenSeq.eachTokenPtr_eq_foldl {α : Type} (f : α → Token → α)
    (ts : TokenSeqPtr) (a : α) :
    TokenSeq.eachToken f ts a = (TokenSeq.flatten ts).foldl f a := by
  cases ts with
  | none => rfl
  | some gens => exact TokenGen.eachTokenList_eq_foldl f gens a

theorem TokenGen.tokens_eq_flatten (g : TokenGen) : g.tokens = g.flatten := by
  rw [TokenGen.tokens, TokenGen.eachToken_eq_foldl, foldl_append_singleton]
  simp

theorem TokenSeq.tokensPtr_eq_flatten (ts : TokenSeqPtr) :
    TokenSeq.tokens ts = TokenSeq.flatten ts := by
  rw [TokenSeq.tokens, TokenSeq.eachTokenPtr_eq_foldl, foldl_append_singleton]
  simp

/-- The running state of a `WriteTo` call: the accumulated byte count `n`,
the first recorded sink error `err`, and the sink's own state `s`. -/
structure WState (σ ε : Type) where
  n : Nat
  err : Option ε
  s : σ
deriving DecidableEq

/-- The inner space-writing loop of `WriteTo`:
`for spacesBefore := token.SpacesBefore; spacesBefore > 0; spacesBefore -= len(spaces)`
with `len(spaces) = 40`; each iteration writes `spaces[:thisChunk]` where
`thisChunk = min(spacesBefore, 40)`, adds the sink-reported count to `n`,
and returns at once when the sink reports an error. -/
def spacesLoop {σ ε : Type} (w : σ → List Nat → Nat × Option ε × σ)
    (sb : Int) (n : Nat) (s : σ) : Nat × Option ε × σ :=
  if h : 0 < sb then
    let thisChunk : Nat := if 40 < sb then 40 else sb.toNat
    match w s (List.replicate thisChunk 32) with
    | (thisN, some e, s1) => (n + thisN, some e, s1)
    | (thisN, none, s1) => spacesLoop w (sb - 40) (n + thisN) s1
  else
    (n, none, s)
termination_by sb.toNat
decreasing_by omega

/-- The body of the callback `WriteTo` passes to `EachToken`: skip the token
if an error is already recorded, otherwise write its leading spaces (stopping
on the sink's first error, without attempting the token's bytes) and then
write its byte payload once, accumulating the sink-reported counts. -/
def writeTokenStep {σ ε : Type} (w : σ → List Nat → Nat × Option ε × σ) :
    WState σ ε → Token → WState σ ε
  | ⟨n, some e, s⟩, _ => ⟨n, some e, s⟩
  | ⟨n, none, s⟩, tok =>
    match spacesLoop w tok.spacesBefore n s with
    | (n1, some e, s1) => ⟨n1, some e, s1⟩
    | (n1, none, s1) =>
      match w s1 tok.bytes with
      | (thisN, e2, s2) => ⟨n1 + thisN, e2, s2⟩

/-- `(ts *TokenSeq).WriteTo(wr)`: traverse the tree via `EachToken` with the
writing callback, starting from a zero count and no error, and return the
final count and error (together with the sink's final state). -/
def TokenSeq.writeTo {σ ε : Type} (w : σ → List Nat → Nat × Option ε × σ)
    (ts : TokenSeqPtr) (s0 : σ) : WState σ ε :=
  TokenSeq.eachToken (writeTokenStep w) ts ⟨0, none, s0⟩

theorem TokenSeq.writeTo_eq_foldl {σ ε : Type}
    (w : σ → List Nat → Nat × Option ε × σ) (ts : TokenSeqPtr) (s0 : σ) :
    TokenSeq.writeTo w ts s0 =
      (TokenSeq.flatten ts).foldl (writeTokenStep w) ⟨0, none, s0⟩ :=
  TokenSeq.eachTokenPtr_eq_foldl (writeTokenStep w) ts ⟨0, none, s0⟩

/-- An always-successful in-memory sink: accepts every chunk in full,
reports its length, appends it to the buffer, and never errors. -/
def bufWriter : List Nat → List Nat → Nat × Option Unit × List Nat :=
  fun s chunk => (chunk.length, none, s ++ chunk)

theorem spacesLoop_bufWriter (sb : Int) (n : Nat) (s : List Nat) :
    spacesLoop bufWriter sb n s =
      (n + sb.toNat, none, s ++ List.replicate sb.toNat 32) := by
  by_cases h : 0 < sb
  · rw [spacesLoop]
    simp only [h, dif_pos, bufWriter, List.length_replicate]
    rw [spacesLoop_bufWriter (sb - 40) _ _]
    by_cases h40 : 40 < sb
    · have hc : (40 : Nat) + (sb - 40).toNat = sb.toNat := by omega
      simp only [h40, if_pos, List.append_assoc, ← List.replicate_add, hc,
        Nat.add_assoc]
    · have hz : (sb - 40).toNat = 0 := by omega
      simp only [h40, if_neg, hz, List.replicate_zero, List.append_nil,
        Nat.add_zero, not_false_iff]
  · have hz : sb.toNat = 0 := by omega
    rw [spacesLoop]
    simp [h, hz]
termination_by sb.toNat
decreasing_by omega

theorem TokenGen.flattenList_append (l r : List TokenGen) :
    TokenGen.flattenList (l ++ r) =
      TokenGen.flattenList l ++ TokenGen.flattenList r := by
  induction l with
  | nil => rfl
  | cons g gs ih => simp [TokenGen.flattenList, ih]

/-- C1: the tokens a `TokenSeq` passes to the callback are the concatenation
of its children's outputs. -/
theorem claim_C1_seq_flatten_concat (cs : List TokenGen) :
    TokenSeq.tokens (some cs) = (cs.map TokenGen.tokens).flatten := by
  rw [TokenSeq.tokensPtr_eq_flatten]
  show TokenGen.flattenList cs = _
  induction cs with
  | nil => rfl
  | cons g gs ih =>
    simp [TokenGen.flattenList, TokenGen.tokens_eq_flatten, ih]

/-- Modelled from the spec: the external lexer is out of scope (§1, §6), and
§6 fixes the round-trip invariant for a tree built by tokenizing bytes `B`
with no edits: across the flattened tokens, the recorded layout is exactly
the source, each token contributing its `SpacesBefore` space characters
followed by its byte payload.  `Token.render` is that per-token
contribution. -/
def Token.render (t : Token) : List Nat :=
  List.replicate t.spacesBefore.toNat 32 ++ t.bytes

/-- Modelled from the spec: the source bytes a tokenized, unedited tree
stands for — the concatenated per-token contributions. -/
def renderTokens (tks : List Token) : List Nat :=
  (tks.map Token.render).flatten

theorem writeTokenStep_bufWriter (n : Nat) (s : List Nat) (t : Token) :
    writeTokenStep bufWriter ⟨n, none, s⟩ t =
      ⟨n + t.render.length, none, s ++ t.render⟩ := by
  simp only [writeTokenStep]
  rw [spacesLoop_bufWriter]
  simp [bufWriter, Token.render, Nat.add_assoc]

theorem foldl_writeTokenStep_bufWriter (tks : List Token) :
    ∀ (n : Nat) (s : List Nat),
      tks.foldl (writeTokenStep bufWriter) ⟨n, none, s⟩ =
        ⟨n + (renderTokens tks).length, none, s ++ renderTokens tks⟩ := by
  induction tks with
  | nil => intro n s; simp [renderTokens]
  | cons t tks ih =>
    intro n s
    rw [List.foldl_cons, writeTokenStep_bufWriter, ih]
    simp [renderTokens, Nat.add_assoc]

/-- C2: round-trip byte-exactness — a tree standing for source bytes `B`
(the spec-modelled tokenizer invariant) serializes to exactly `B`, with
count `B.length` and no error. -/
theorem claim_C2_roundtrip (ts : TokenSeqPtr) (B : List Nat)
    (hB : renderTokens (TokenSeq.tokens ts) = B) :
    TokenSeq.writeTo bufWriter ts [] = ⟨B.length, none, B⟩ := by
  rw [TokenSeq.writeTo_eq_foldl, ← TokenSeq.tokensPtr_eq_flatten,
    foldl_writeTokenStep_bufWriter, hB]
  simp

/-- Witness for C2 at a concrete two-leaf tree whose rendering is
`"  ab c"`. -/
theorem claim_C2_roundtrip_witness :
    TokenSeq.writeTo bufWriter
      (some [TokenGen.single ⟨1, [97, 98], 2⟩,
             TokenGen.flat [⟨2, [99], 1⟩]]) [] =
      ⟨6, none, [32, 32, 97, 98, 32, 99]⟩ :=
  claim_C2_roundtrip _ [32, 32, 97, 98, 32, 99] rfl

/-- C3: a token with `SpacesBefore = k` and payload `b` serializes as `k`
spaces followed by `b`, for every `k`, including `k = 0` with empty or
non-empty `b`. -/
theorem claim_C3_spaces_then_bytes (k : Nat) (ty : Nat) (b : List Nat) :
    TokenSeq.writeTo bufWriter (some [TokenGen.single ⟨ty, b, (k : Int)⟩]) [] =
      ⟨k + b.length, none, List.replicate k 32 ++ b⟩ := by
  rw [TokenSeq.writeTo_eq_foldl]
  show List.foldl _ _ [Token.mk ty b (k : Int)] = _
  rw [List.foldl_cons, writeTokenStep_bufWriter]
  simp [Token.render]

/-- C5: the empty sequence, a nil `*TokenSeq`, and a nil child list all
contribute zero callback invocations, and splicing `TokenSeqEmpty` in as a
child anywhere leaves the flattened output unchanged. -/
theorem claim_C5_empty_identity :
    (∀ (α : Type) (f : α → Token → α) (a : α),
        TokenSeq.eachToken f none a = a ∧
        TokenSeq.eachToken f (some []) a = a ∧
        TokenSeq.eachToken f (some TokenSeqEmpty) a = a) ∧
    TokenSeq.tokens none = [] ∧
    TokenSeq.tokens (some TokenSeqEmpty) = [] ∧
    ∀ (l r : List TokenGen),
      TokenSeq.tokens (some (l ++ TokenGen.seq (some TokenSeqEmpty) :: r)) =
        TokenSeq.tokens (some (l ++ r)) := by
  refine ⟨fun α f a => ⟨rfl, rfl, rfl⟩, rfl, rfl, fun l r => ?_⟩
  rw [TokenSeq.tokensPtr_eq_flatten, TokenSeq.tokensPtr_eq_flatten]
  show TokenGen.flattenList _ = TokenGen.flattenList _
  rw [TokenGen.flattenList_append, TokenGen.flattenList_append]
  rfl

/-- C7: a tree whose flattened token list is empty writes nothing to any
sink and returns count 0 with no error. -/
theorem claim_C7_empty_tree_writes_zero {σ ε : Type}
    (w : σ → List Nat → Nat × Option ε × σ) (ts : TokenSeqPtr) (s0 : σ)
    (h : TokenSeq.tokens ts = []) :
    TokenSeq.writeTo w ts s0 = ⟨0, none, s0⟩ := by
  rw [TokenSeq.writeTo_eq_foldl, ← TokenSeq.tokensPtr_eq_flatten, h]
  rfl

/-- Witness for C7 at a tree of nested empty generators against the
in-memory sink. -/
theorem claim_C7_empty_tree_writes_zero_witness :
    TokenSeq.writeTo bufWriter
      (some [TokenGen.seq none, TokenGen.seq (some []), TokenGen.flat []])
      [] = ⟨0, none, []⟩ :=
  claim_C7_empty_tree_writes_zero bufWriter _ [] rfl

theorem spacesLoop_nonpos {σ ε : Type} (w : σ → List Nat → Nat × Option ε × σ)
    (sb : Int) (n : Nat) (s : σ) (h : sb ≤ 0) :
    spacesLoop w sb n s = (n, none, s) := by
  rw [spacesLoop]
  simp [show ¬(0 < sb) from by omega]

theorem spacesLoop_zero {σ ε : Type} (w : σ → List Nat → Nat × Option ε × σ)
    (n : Nat) (s : σ) : spacesLoop w 0 n s = (n, none, s) :=
  spacesLoop_nonpos w 0 n s (by omega)

theorem writeTokenStep_absorb {σ ε : Type}
    (w : σ → List Nat → Nat × Option ε × σ) (n : Nat) (e : ε) (s : σ)
    (tok : Token) : writeTokenStep w ⟨n, some e, s⟩ tok = ⟨n, some e, s⟩ :=
  rfl

theorem foldl_writeTokenStep_absorb {σ ε : Type}
    (w : σ → List Nat → Nat × Option ε × σ) (tks : List Token) (n : Nat)
    (e : ε) (s : σ) :
    tks.foldl (writeTokenStep w) ⟨n, some e, s⟩ = ⟨n, some e, s⟩ := by
  induction tks with
  | nil => rfl
  | cons t tks ih => rw [List.foldl_cons, writeTokenStep_absorb, ih]

/-- C4: fail-fast — if every write for the first `i` tokens succeeded
(accumulated count `n1`) and the sink first fails during token `i`
(leaving count `n2`, error `e`, sink state `s2`), then `WriteTo` returns
exactly `⟨n2, some e, s2⟩`: the error is the first one, the count is the
prefix count plus the partial amount for token `i`, and the sink receives
no further writes for the remaining tokens. -/
theorem claim_C4_fail_fast {σ ε : Type}
    (w : σ → List Nat → Nat × Option ε × σ) (ts : TokenSeqPtr) (s0 : σ)
    (tksPre : List Token) (tok : Token) (tksPost : List Token)
    (n1 : Nat) (s1 : σ) (n2 : Nat) (s2 : σ) (e : ε)
    (hsplit : TokenSeq.tokens ts = tksPre ++ tok :: tksPost)
    (hpre : tksPre.foldl (writeTokenStep w) ⟨0, none, s0⟩ = ⟨n1, none, s1⟩)
    (hfail : writeTokenStep w ⟨n1, none, s1⟩ tok = ⟨n2, some e, s2⟩) :
    TokenSeq.writeTo w ts s0 = ⟨n2, some e, s2⟩ := by
  rw [TokenSeq.writeTo_eq_foldl, ← TokenSeq.tokensPtr_eq_flatten, hsplit,
    List.foldl_append, hpre, List.foldl_cons, hfail,
    foldl_writeTokenStep_absorb]

/-- A fault-injecting sink: an in-memory buffer of capacity `cap`; a chunk
that would overflow is accepted only up to capacity and reported together
with an error. -/
def faultWriter (cap : Nat) : List Nat → List Nat → Nat × Option Unit × List Nat :=
  fun s chunk =>
    if s.length + chunk.length ≤ cap then (chunk.length, none, s ++ chunk)
    else (cap - s.length, some (), s ++ chunk.take (cap - s.length))

/-- Witness for C4: three two-byte/one-byte tokens against a capacity-3
fault sink; the sink fails on token 1 after accepting one of its two bytes,
so `WriteTo` reports count 3 (= 2 + 1 partial), the error, and token 2 is
never written. -/
theorem claim_C4_fail_fast_witness :
    TokenSeq.writeTo (faultWriter 3)
      (some [TokenGen.flat [⟨1, [97, 98], 0⟩, ⟨2, [99, 100], 0⟩,
                            ⟨3, [101], 0⟩]]) [] =
      ⟨3, some (), [97, 98, 99]⟩ :=
  claim_C4_fail_fast (faultWriter 3) _ []
    [⟨1, [97, 98], 0⟩] ⟨2, [99, 100], 0⟩ [⟨3, [101], 0⟩]
    2 [97, 98] 3 [97, 98, 99] ()
    rfl
    (by simp [writeTokenStep, spacesLoop_zero, faultWriter])
    (by simp [writeTokenStep, spacesLoop_zero, faultWriter])

/-- A sink that records every chunk it is handed, accepting each in full. -/
def recWriter : List (List Nat) → List Nat → Nat × Option Unit × List (List Nat) :=
  fun log chunk => (chunk.length, none, log ++ [chunk])

theorem spacesLoop_recWriter (sb : Int) (n : Nat) (log : List (List Nat)) :
    ∃ chunks : List (List Nat),
      spacesLoop recWriter sb n log =
        (n + (chunks.map List.length).sum, none, log ++ chunks) ∧
      (∀ c ∈ chunks, 1 ≤ c.length ∧ c.length ≤ 40) ∧
      (chunks.map List.length).sum = sb.toNat := by
  by_cases h : 0 < sb
  · rw [spacesLoop]
    simp only [h, dif_pos, recWriter, List.length_replicate]
    obtain ⟨chunks, h1, h2, h3⟩ :=
      spacesLoop_recWriter (sb - 40)
        (n + (if 40 < sb then 40 else sb.toNat))
        (log ++ [List.replicate (if 40 < sb then 40 else sb.toNat) 32])
    refine ⟨List.replicate (if 40 < sb then 40 else sb.toNat) 32 :: chunks,
      ?_, ?_, ?_⟩
    · rw [h1]
      simp [Nat.add_assoc]
    · intro c hc
      rcases List.mem_cons.mp hc with hc | hc
      · subst hc
        constructor <;> simp only [List.length_replicate] <;> split <;> omega
      · exact h2 c hc
    · simp only [List.map_cons, List.sum_cons, List.length_replicate, h3]
      split <;> omega
  · refine ⟨[], ?_, ?_, ?_⟩
    · rw [spacesLoop_nonpos recWriter sb n log (by omega)]
      simp
    · simp
    · simp
      omega
termination_by sb.toNat
decreasing_by omega

/-- C8: when `WriteTo` emits a token's leading spaces, every chunk handed
to the sink has between 1 and 40 bytes (the scratch-buffer size), no error
arises from a successful sink, and the chunk sizes sum to exactly the
token's space count (`sb.toNat`, i.e. `SpacesBefore` whenever it is
non-negative). -/
theorem claim_C8_space_chunks_bounded (sb : Int) :
    (spacesLoop recWriter sb 0 []).2.1 = none ∧
    (∀ c ∈ (spacesLoop recWriter sb 0 []).2.2,
        1 ≤ c.length ∧ c.length ≤ 40) ∧
    ((spacesLoop recWriter sb 0 []).2.2.map List.length).sum = sb.toNat := by
  obtain ⟨chunks, h1, h2, h3⟩ := spacesLoop_recWriter sb 0 []
  rw [h1]
  exact ⟨rfl, fun c hc => h2 c (by simpa using hc), by simpa using h3⟩

/-- C9: a token whose `SpacesBefore` is negative gets zero space bytes —
the space loop never runs — and its byte payload is then written normally:
the run is indistinguishable from the same token with `SpacesBefore = 0`. -/
theorem claim_C9_negative_spaces_as_zero {σ ε : Type}
    (w : σ → List Nat → Nat × Option ε × σ) (ty : Nat) (b : List Nat)
    (k : Int) (s0 : σ) (hk : k < 0) :
    TokenSeq.writeTo w (some [TokenGen.single ⟨ty, b, k⟩]) s0 =
      ⟨(w s0 b).1, (w s0 b).2.1, (w s0 b).2.2⟩ ∧
    TokenSeq.writeTo w (some [TokenGen.single ⟨ty, b, k⟩]) s0 =
      TokenSeq.writeTo w (some [TokenGen.single ⟨ty, b, 0⟩]) s0 := by
  constructor
  · simp only [TokenSeq.writeTo, TokenSeq.eachToken, TokenGen.eachTokenList,
      TokenGen.eachToken, writeTokenStep]
    rw [spacesLoop_nonpos w k 0 s0 (le_of_lt hk)]
    rcases hw : w s0 b with ⟨a, e2, s2⟩
    simp [hw]
  · simp only [TokenSeq.writeTo, TokenSeq.eachToken, TokenGen.eachTokenList,
      TokenGen.eachToken, writeTokenStep]
    rw [spacesLoop_nonpos w k 0 s0 (le_of_lt hk), spacesLoop_zero w 0 s0]

/-- Witness for C9 at `SpacesBefore = -5` against the in-memory sink. -/
theorem claim_C9_negative_spaces_as_zero_witness :
    TokenSeq.writeTo bufWriter (some [TokenGen.single ⟨1, [120], -5⟩]) [] =
      ⟨1, none, [120]⟩ ∧
    TokenSeq.writeTo bufWriter (some [TokenGen.single ⟨1, [120], -5⟩]) [] =
      TokenSeq.writeTo bufWriter (some [TokenGen.single ⟨1, [120], 0⟩]) [] :=
  claim_C9_negative_spaces_as_zero bufWriter 1 [120] (-5) [] (by decide)

/-- Wraps an arbitrary sink so that the state additionally records, in
order, the count the sink reported for every write actually issued. -/
def logWriter {σ ε : Type} (w : σ → List Nat → Nat × Option ε × σ) :
    σ × List Nat → List Nat → Nat × Option ε × (σ × List Nat) :=
  fun p chunk =>
    match w p.1 chunk with
    | (k, e, s1) => (k, e, (s1, p.2 ++ [k]))

theorem spacesLoop_logWriter {σ ε : Type}
    (w : σ → List Nat → Nat × Option ε × σ) (sb : Int) (s : σ)
    (log : List Nat) :
    (spacesLoop (logWriter w) sb log.sum (s, log)).1 =
      (spacesLoop (logWriter w) sb log.sum (s, log)).2.2.2.sum := by
  by_cases h : 0 < sb
  · rw [spacesLoop]
    simp only [h, dif_pos, logWriter]
    rcases hw : w s (List.replicate (if 40 < sb then 40 else sb.toNat) 32)
      with ⟨k, e, s1⟩
    cases e with
    | some e => simp [hw]
    | none =>
      have ih := spacesLoop_logWriter w (sb - 40) s1 (log ++ [k])
      simp only [hw]
      simpa [List.sum_append] using ih
  · rw [spacesLoop_nonpos (logWriter w) sb log.sum (s, log) (by omega)]
termination_by sb.toNat
decreasing_by omega

theorem writeTokenStep_logWriter {σ ε : Type}
    (w : σ → List Nat → Nat × Option ε × σ) (st : WState (σ × List Nat) ε)
    (tok : Token) (h : st.n = st.s.2.sum) :
    (writeTokenStep (logWriter w) st tok).n =
      (writeTokenStep (logWriter w) st tok).s.2.sum := by
  obtain ⟨n, err, s, log⟩ := st
  cases err with
  | some e => exact h
  | none =>
    simp only at h
    subst h
    simp only [writeTokenStep]
    have hs := spacesLoop_logWriter w tok.spacesBefore s log
    rcases hsp : spacesLoop (logWriter w) tok.spacesBefore log.sum (s, log)
      with ⟨n1, e1, s1, log1⟩
    rw [hsp] at hs
    simp only at hs
    cases e1 with
    | some e => simpa using hs
    | none =>
      simp only [logWriter]
      rcases hw : w s1 tok.bytes with ⟨k, e2, s2⟩
      simp [hw, List.sum_append, hs]

theorem foldl_writeTokenStep_logWriter {σ ε : Type}
    (w : σ → List Nat → Nat × Option ε × σ) (tks : List Token) :
    ∀ st : WState (σ × List Nat) ε, st.n = st.s.2.sum →
      ((tks.foldl (writeTokenStep (logWriter w)) st).n =
        (tks.foldl (writeTokenStep (logWriter w)) st).s.2.sum) := by
  induction tks with
  | nil => intro st h; exact h
  | cons t tks ih =>
    intro st h
    rw [List.foldl_cons]
    exact ih _ (writeTokenStep_logWriter w st t h)

/-- C10: the count `WriteTo` returns is exactly the sum of the counts the
sink reported over the writes actually issued — a short write is never
retried, so any shortfall shows up only in the returned count. -/
theorem claim_C10_count_is_sum_reported {σ ε : Type}
    (w : σ → List Nat → Nat × Option ε × σ) (ts : TokenSeqPtr) (s0 : σ) :
    (TokenSeq.writeTo (logWriter (ε := ε) w) ts (s0, [])).n =
      (TokenSeq.writeTo (logWriter (ε := ε) w) ts (s0, [])).s.2.sum := by
  rw [TokenSeq.writeTo_eq_foldl]
  exact foldl_writeTokenStep_logWriter w _ ⟨0, none, (s0, [])⟩ rfl

/-- The `Transformer` interface: one method, `TransformBody`. -/
structure Transformer (Body : Type) where
  transformBody : Body → Body

/-- `TransformerFunc`: a bare body-to-body function usable as a
Transformer. -/
def TransformerFunc (Body : Type) : Type := Body → Body

/-- `TransformerFunc.TransformBody(in)` returns `f(in)`. -/
def TransformerFunc.transformBody {Body : Type} (f : TransformerFunc Body)
    (b : Body) : Body :=
  f b

/-- The `chain` type's `TransformBody`: thread the body through each
transformer in list order. -/
def chainTransformBody {Body : Type} (c : List (Transformer Body))
    (body : Body) : Body :=
  c.foldl (fun b t => t.transformBody b) body

/-- `Chain(c)`: the list of transformers as a single Transformer. -/
def Chain {Body : Type} (c : List (Transformer Body)) : Transformer Body :=
  ⟨chainTransformBody c⟩

/-- C6: `Chain` applies its transformers strictly left to right with no
short-circuit — the empty chain is the identity, a chain is the head
applied first and the tail chained after, the last transformer is applied
last, and a duplicated transformer is applied twice. -/
theorem claim_C6_chain_sequential {Body : Type} (t : Transformer Body)
    (ts : List (Transformer Body)) (body : Body) :
    (Chain []).transformBody body = body ∧
    (Chain (t :: ts)).transformBody body =
      (Chain ts).transformBody (t.transformBody body) ∧
    (Chain (ts ++ [t])).transformBody body =
      t.transformBody ((Chain ts).transformBody body) ∧
    (Chain [t, t]).transformBody body =
      t.transformBody (t.transformBody body) := by
  refine ⟨rfl, rfl, ?_, rfl⟩
  simp [Chain, chainTransformBody, List.foldl_append]
